import Mathlib

/-!
Verification of the `lrucache` Go package (file `lrucache.go`): the sharded
LRU cache dispatch layer, its namespace registry and bootstrap, together
with the per-shard LRU engine that the dispatch layer drives.

The dispatch layer (`InitLRUCache`, `DefaultLRUCache`, `NewLRUCache`,
`getNamespace`, `keyAdaptNamespace`, `shard`, `getPerfShardCapacity`,
`getDefaultCacheShardBits` and the `LRUCache` methods) is translated
directly from the source.  The shard engine (`LRUCacheShard`), the hash
function `HashSlice` and the built-in merge/charge operators live outside
the given source file; they are modelled from the specification (each such
definition says so in its doc comment).  Go byte slices and strings are
`List Nat`, Go `interface` payloads are the `Value` type, Go `uint64`
arithmetic wraps with an explicit `% 2 ^ 64` where it matters, package
level mutable state is threaded explicitly, and a Go `panic` is the
`Except.error` branch of the result.
-/

/-- Stored values: the Go `interface` payloads this package actually uses
(strings via `Put`/`Get`, signed 64-bit counters via `NewId`). -/
inductive Value where
  | vstr (s : List Nat) : Value
  | vint (n : Int) : Value
deriving DecidableEq, Repr

/-- Modelled from the spec: the unit stored in a shard.  `key` is the full
namespace-prefixed key; `refcount` counts outstanding external pins.
Entries present in `table` are exactly the `in_cache` entries. -/
structure Entry where
  key : List Nat
  value : Value
  charge : Nat
  refcount : Nat
deriving DecidableEq, Repr

/-- Modelled from the spec: one `LRUCacheShard` (the shard source is not in
the given file).  `table` is the hash index (keys unique), `lru` holds the
keys of evictable entries with the most recently used at the head, `usage`
is the summed charge of indexed entries, `capacity` the per-shard budget. -/
structure Shard where
  table : List Entry
  lru : List (List Nat)
  usage : Nat
  capacity : Nat
deriving DecidableEq, Repr

/-- A shard with no entries. -/
def emptyShard (cap : Nat) : Shard :=
  { table := [], lru := [], usage := 0, capacity := cap }

/-- Out-of-range default used with `List.getD` on the shard array. -/
def defShard : Shard := emptyShard 0

/-- Modelled from the spec: the eviction loop body.  While `usage` exceeds
`capacity` and the LRU list is non-empty, the entry at the LRU tail is
removed from the table, its charge subtracted, and it is destroyed.  Each
step shortens `lru` by one, so `lru.length` fuel always suffices. -/
def Shard.evictFuel : Nat → Shard → Shard
  | 0, s => s
  | fuel + 1, s =>
    if s.usage ≤ s.capacity then s
    else
      match s.lru.getLast? with
      | none => s
      | some k =>
        let chg := match s.table.find? (fun e => decide (e.key = k)) with
          | some e => e.charge
          | none => 0
        Shard.evictFuel fuel
          { s with table := s.table.filter (fun e => decide (e.key ≠ k)),
                   usage := s.usage - chg,
                   lru := s.lru.dropLast }

/-- Modelled from the spec: evict from the LRU tail until `usage ≤ capacity`
or the LRU list is empty. -/
def Shard.evict (s : Shard) : Shard := Shard.evictFuel s.lru.length s

/-- Modelled from the spec: shard `Insert`.  An existing entry with the same
key is displaced first; the new entry enters the table with refcount 0 and
is linked at the LRU head; then the shard evicts as needed. -/
def Shard.insert (rk : List Nat) (v : Value) (charge : Nat) (s : Shard) : Shard :=
  let s0 := match s.table.find? (fun e => decide (e.key = rk)) with
    | some e =>
      { s with table := s.table.filter (fun x => decide (x.key ≠ rk)),
               usage := s.usage - e.charge,
               lru := s.lru.filter (fun k => decide (k ≠ rk)) }
    | none => s
  Shard.evict
    { s0 with table := { key := rk, value := v, charge := charge, refcount := 0 } :: s0.table,
              usage := s0.usage + charge,
              lru := rk :: s0.lru }

/-- Modelled from the spec: shard `Lookup`.  On a hit the entry is moved to
the LRU head when unpinned; the reference count is unchanged. -/
def Shard.lookup (rk : List Nat) (s : Shard) : Option Value × Bool × Shard :=
  match s.table.find? (fun e => decide (e.key = rk)) with
  | none => (none, false, s)
  | some e =>
    (some e.value, true,
      if e.refcount = 0 then
        { s with lru := rk :: s.lru.filter (fun k => decide (k ≠ rk)) }
      else s)

/-- Modelled from the spec: shard `Reference`.  On a hit the reference count
is incremented; a transition from 0 to 1 unlinks the entry from the LRU
list. -/
def Shard.reference (rk : List Nat) (s : Shard) : Option Value × Bool × Shard :=
  match s.table.find? (fun e => decide (e.key = rk)) with
  | none => (none, false, s)
  | some e =>
    (some e.value, true,
      { s with
          table := s.table.map
            (fun x => if x.key = rk then { x with refcount := x.refcount + 1 } else x),
          lru := if e.refcount = 0 then s.lru.filter (fun k => decide (k ≠ rk)) else s.lru })

/-- Modelled from the spec: shard `Remove`.  The entry leaves the table and
the LRU list and its charge is subtracted. -/
def Shard.remove (rk : List Nat) (s : Shard) : Option Value × Bool × Shard :=
  match s.table.find? (fun e => decide (e.key = rk)) with
  | none => (none, false, s)
  | some e =>
    (some e.value, true,
      { s with table := s.table.filter (fun x => decide (x.key ≠ rk)),
               usage := s.usage - e.charge,
               lru := s.lru.filter (fun k => decide (k ≠ rk)) })

/-- Modelled from the spec: shard `Release`.  Dropping the reference count
to 0 relinks the entry at the LRU head and then evicts as needed. -/
def Shard.release (rk : List Nat) (s : Shard) : Shard :=
  match s.table.find? (fun e => decide (e.key = rk)) with
  | none => s
  | some e =>
    if e.refcount = 0 then s
    else
      let s1 := { s with
        table := s.table.map
          (fun x => if x.key = rk then { x with refcount := x.refcount - 1 } else x) }
      if e.refcount = 1 then
        Shard.evict { s1 with lru := rk :: s1.lru }
      else s1

/-- Caller-supplied merge operator, which may fail. -/
def MergeOp : Type := Value → Value → Except String Value

/-- Caller-supplied charge operator, which may fail. -/
def ChargeOp : Type := Nat → Nat → Except String Nat

/-- Modelled from the spec: shard `Merge`, an atomic read-modify-write.  On
a hit the value and charge are recomputed by the operators, the entry is
promoted when unpinned and the shard evicts as needed; an operator error
aborts with no state change.  On a miss the delta is inserted. -/
def Shard.merge (rk : List Nat) (delta : Value) (dcharge : Nat)
    (mop : MergeOp) (cop : ChargeOp) (s : Shard) : Except String (Value × Shard) :=
  match s.table.find? (fun e => decide (e.key = rk)) with
  | none => Except.ok (delta, Shard.insert rk delta dcharge s)
  | some e =>
    match mop e.value delta with
    | Except.error msg => Except.error msg
    | Except.ok nv =>
      match cop e.charge dcharge with
      | Except.error msg => Except.error msg
      | Except.ok nc =>
        let s1 := { s with
          table := s.table.map
            (fun x => if x.key = rk then { x with value := nv, charge := nc } else x),
          usage := s.usage - e.charge + nc,
          lru := if e.refcount = 0 then rk :: s.lru.filter (fun k => decide (k ≠ rk))
                 else s.lru }
        Except.ok (nv, Shard.evict s1)

/-- Modelled from the spec: shard `SetCapacity` assigns the new budget and
immediately evicts while `usage` exceeds it. -/
def Shard.setCapacity (cap : Nat) (s : Shard) : Shard :=
  Shard.evict { s with capacity := cap }

/-- Modelled from the spec: `Int64MergeOperator` adds the delta to the old
value when both are 64-bit signed integers and fails otherwise. -/
def Int64MergeOperator : MergeOp := fun old delta =>
  match old, delta with
  | Value.vint a, Value.vint b => Except.ok (Value.vint (a + b))
  | _, _ => Except.error "Int64MergeOperator: not an int64"

/-- Modelled from the spec: `Int64ChargeOperator` returns the fixed storage
cost of a counter. -/
def Int64ChargeOperator : ChargeOp := fun _ _ => Except.ok 8

/-- From the source, `keyAdaptNamespace`: the real key handed to the shards
is the namespace tag followed by the user key. -/
def keyAdaptNamespace (key ns : List Nat) : List Nat := ns ++ key

/-- From the source, the tag construction in `NewLRUCache`: a zeroed 10-byte
array whose first `min 10 (length s)` bytes are copied from the namespace
string. -/
def mkTag (s : List Nat) : List Nat :=
  (List.range 10).map (fun i => if i < s.length then s.getD i 0 else 0)

/-- From the source, method `shard`: the shard index for a 32-bit hash. -/
def shardIdx (bits hash : Nat) : Nat :=
  if 0 < bits then hash >>> (32 - bits) else 0

/-- From the source, `getPerfShardCapacity`: per-shard capacity, computed in
Go `uint64` arithmetic (the sum wraps modulo `2 ^ 64`). -/
def getPerfShardCapacity (capacity bits : Nat) : Nat :=
  ((capacity + (2 ^ bits - 1)) % 2 ^ 64) / 2 ^ bits

/-- From the source, the loop of `getDefaultCacheShardBits`: shift the shard
count right until zero, counting steps, returning early at 6.  The count
rises by one per step and the loop returns as soon as it reaches 6, so a
fuel of 6 from a zero count is never exhausted. -/
def shardBitsLoopF : Nat → Nat → Nat → Nat
  | 0, _, bits => bits
  | fuel + 1, num_shards, bits =>
    if num_shards = 0 then bits
    else if 6 ≤ bits + 1 then bits + 1
    else shardBitsLoopF fuel (num_shards / 2) (bits + 1)

/-- From the source, `getDefaultCacheShardBits`: derive the shard bits from
the capacity, starting from `capacity / 512 KiB`. -/
def getDefaultCacheShardBits (capacity : Nat) : Nat :=
  shardBitsLoopF 6 (capacity / (512 * 1024)) 0

/-- Spec-side definition, following the spec's words for claim C6: the
number of right-shifts needed to reduce `n` to zero. -/
def specShiftCount (n : Nat) : Nat :=
  if n = 0 then 0 else specShiftCount (n / 2) + 1
termination_by n
decreasing_by exact Nat.div_lt_self (Nat.pos_of_ne_zero (by assumption)) (by omega)

/-- Spec-side definition, following the spec's words for claim C7: exact
ceiling division `ceil (c / n)`. -/
def specCeil (c n : Nat) : Nat :=
  if c % n = 0 then c / n else c / n + 1

/-- From the source, struct `lru_cache` (merged with the registry state it
owns): the shard array, the configured shard bits and capacity, the id
counter, and the namespace registry.  Registered handles are identified by
the allocation counter `nextHandle`, modelling Go pointer identity. -/
structure CacheState where
  shards : List Shard
  num_shard_bits : Nat
  capacity : Nat
  atomic_last_id : Nat
  namespaces : List (List Nat × Nat)
  nextHandle : Nat
deriving DecidableEq, Repr

/-- Association-list read of the namespace registry (the Go map read). -/
def lookupTag (l : List (List Nat × Nat)) (tag : List Nat) : Option Nat :=
  (l.find? (fun p => decide (p.1 = tag))).map (fun p => p.2)

/-- From the source, the body of `InitLRUCache` after the shard-bit checks:
allocate `2 ^ bits` shards, each sized by `getPerfShardCapacity`.  The
shard constructor `NewLRUCacheShard` is modelled from the spec as an empty
shard with the given capacity. -/
def initCache (capacity bits : Nat) : CacheState :=
  { shards := List.replicate (2 ^ bits) (emptyShard (getPerfShardCapacity capacity bits)),
    num_shard_bits := bits,
    capacity := capacity,
    atomic_last_id := 1,
    namespaces := [],
    nextHandle := 0 }

/-- From the source, `InitLRUCache`: panic when `num_shard_bits ≥ 10`,
derive the shard bits when the argument is zero, then install a freshly
built cache as the package global (the previous global, if any, is simply
replaced). -/
def InitLRUCache (capacity bits : Nat) (_g : Option CacheState) :
    Except String (Option CacheState) :=
  if 10 ≤ bits then Except.error "num_shard_bits must < 10"
  else if bits = 0 then Except.ok (some (initCache capacity (getDefaultCacheShardBits capacity)))
  else Except.ok (some (initCache capacity bits))

/-- From the source, `DefaultLRUCache`: panic when the global cache is not
initialized, otherwise return a fresh handle whose tag is the zero 10-byte
array.  The handle is represented by its tag. -/
def DefaultLRUCache (g : Option CacheState) : Except String (List Nat) :=
  match g with
  | none => Except.error "use LRUCache must InitLRUCache first"
  | some _ => Except.ok (List.replicate 10 0)

/-- From the source, `getNamespace`: the double-checked registry access.
The Go code shadows the handle variable inside the `if` initializer, so
every path other than fresh creation falls through to `return cache, false`
with the outer, still-nil handle; `none` models that nil. -/
def getNamespace (tag : List Nat) (st : CacheState) : Option Nat × Bool × CacheState :=
  match lookupTag st.namespaces tag with
  | some _ => (none, false, st)
  | none =>
    match lookupTag st.namespaces tag with
    | some _ => (none, false, st)
    | none =>
      let id := st.nextHandle
      (some id, true,
        { st with namespaces := (tag, id) :: st.namespaces, nextHandle := id + 1 })

/-- From the source, `NewLRUCache`: panic when the global cache is not
initialized, otherwise build the 10-byte tag and consult the registry. -/
def NewLRUCache (s : List Nat) (g : Option CacheState) :
    Except String (Option Nat × Bool × CacheState) :=
  match g with
  | none => Except.error "use LRUCache must InitLRUCache first"
  | some st => Except.ok (getNamespace (mkTag s) st)

/-- From the source, method `Insert` on a handle with tag `tag`: form the
real key, hash it, and dispatch to the selected shard.  `hashFn` stands for
`HashSlice`, which is outside the given source file; the spec constrains it
only to produce 32-bit values. -/
def cacheInsert (hashFn : List Nat → Nat) (tag key : List Nat) (v : Value)
    (charge : Nat) (st : CacheState) : CacheState :=
  let rk := keyAdaptNamespace key tag
  let i := shardIdx st.num_shard_bits (hashFn rk)
  { st with shards := st.shards.set i (Shard.insert rk v charge (st.shards.getD i defShard)) }

/-- From the source, method `Lookup` on a handle. -/
def cacheLookup (hashFn : List Nat → Nat) (tag key : List Nat) (st : CacheState) :
    Option Value × Bool × CacheState :=
  let rk := keyAdaptNamespace key tag
  let i := shardIdx st.num_shard_bits (hashFn rk)
  let r := Shard.lookup rk (st.shards.getD i defShard)
  (r.1, r.2.1, { st with shards := st.shards.set i r.2.2 })

/-- From the source, method `Remove` on a handle. -/
def cacheRemove (hashFn : List Nat → Nat) (tag key : List Nat) (st : CacheState) :
    Option Value × Bool × CacheState :=
  let rk := keyAdaptNamespace key tag
  let i := shardIdx st.num_shard_bits (hashFn rk)
  let r := Shard.remove rk (st.shards.getD i defShard)
  (r.1, r.2.1, { st with shards := st.shards.set i r.2.2 })

/-- From the source, method `Reference` on a handle. -/
def cacheReference (hashFn : List Nat → Nat) (tag key : List Nat) (st : CacheState) :
    Option Value × Bool × CacheState :=
  let rk := keyAdaptNamespace key tag
  let i := shardIdx st.num_shard_bits (hashFn rk)
  let r := Shard.reference rk (st.shards.getD i defShard)
  (r.1, r.2.1, { st with shards := st.shards.set i r.2.2 })

/-- From the source, method `Release` on a handle. -/
def cacheRelease (hashFn : List Nat → Nat) (tag key : List Nat) (st : CacheState) :
    CacheState :=
  let rk := keyAdaptNamespace key tag
  let i := shardIdx st.num_shard_bits (hashFn rk)
  { st with shards := st.shards.set i (Shard.release rk (st.shards.getD i defShard)) }

/-- From the source, method `Merge` on a handle. -/
def cacheMerge (hashFn : List Nat → Nat) (tag key : List Nat) (delta : Value)
    (dcharge : Nat) (mop : MergeOp) (cop : ChargeOp) (st : CacheState) :
    Except String (Value × CacheState) :=
  let rk := keyAdaptNamespace key tag
  let i := shardIdx st.num_shard_bits (hashFn rk)
  match Shard.merge rk delta dcharge mop cop (st.shards.getD i defShard) with
  | Except.error msg => Except.error msg
  | Except.ok (v, sh) => Except.ok (v, { st with shards := st.shards.set i sh })

/-- From the source, method `Get`: a `Lookup` whose result is accepted only
when the stored value is a string; otherwise report not found. -/
def cacheGet (hashFn : List Nat → Nat) (tag key : List Nat) (st : CacheState) :
    (List Nat × Bool) × CacheState :=
  let r := cacheLookup hashFn tag key st
  match r.1 with
  | some (Value.vstr s) => ((s, true), r.2.2)
  | _ => (([], false), r.2.2)

/-- From the source, method `NewId`: merge `+1` with the int64 operators,
return 0 for the value on a failed int64 assertion, and call `Reference`
exactly when the post-merge value is 1. -/
def cacheNewId (hashFn : List Nat → Nat) (tag key : List Nat) (st : CacheState) :
    Except String (Int × CacheState) :=
  match cacheMerge hashFn tag key (Value.vint 1) 4 Int64MergeOperator Int64ChargeOperator st with
  | Except.error msg => Except.error msg
  | Except.ok (v, st1) =>
    let res : Int := match v with
      | Value.vint n => n
      | _ => 0
    if res = 1 then Except.ok (res, (cacheReference hashFn tag key st1).2.2)
    else Except.ok (res, st1)

/-- From the source, method `SetCapacity`: recompute the per-shard budget
and assign it to every shard. -/
def cacheSetCapacity (capacity : Nat) (st : CacheState) : CacheState :=
  { st with
    shards := st.shards.map
      (Shard.setCapacity (getPerfShardCapacity capacity st.num_shard_bits)) }

/-- Observer: the entry currently stored for a raw (already prefixed) key,
read without mutating anything. -/
def peekRaw (hashFn : List Nat → Nat) (rk : List Nat) (st : CacheState) : Option Entry :=
  (st.shards.getD (shardIdx st.num_shard_bits (hashFn rk)) defShard).table.find?
    (fun e => decide (e.key = rk))

/-- Observer: the entry stored for a user key seen through a handle. -/
def peekEntry (hashFn : List Nat → Nat) (tag key : List Nat) (st : CacheState) :
    Option Entry :=
  peekRaw hashFn (keyAdaptNamespace key tag) st

/-- Observer: just the stored value. -/
def peekValue (hashFn : List Nat → Nat) (tag key : List Nat) (st : CacheState) :
    Option Value :=
  (peekEntry hashFn tag key st).map (fun e => e.value)

/-- Whether an `Except` result is the error (Go panic / error) branch. -/
def isErr {ε α : Type} : Except ε α → Bool
  | Except.error _ => true
  | Except.ok _ => false

instance decEqExcept {ε α : Type} [DecidableEq ε] [DecidableEq α] :
    DecidableEq (Except ε α) := fun x y =>
  match x, y with
  | Except.ok a, Except.ok b =>
    if h : a = b then isTrue (by rw [h])
    else isFalse (by intro hc; cases hc; exact h rfl)
  | Except.error a, Except.error b =>
    if h : a = b then isTrue (by rw [h])
    else isFalse (by intro hc; cases hc; exact h rfl)
  | Except.ok _, Except.error _ => isFalse (by intro hc; cases hc)
  | Except.error _, Except.ok _ => isFalse (by intro hc; cases hc)

lemma getD_replicate {α : Type} {i n : Nat} (a d : α) (h : i < n) :
    (List.replicate n a).getD i d = a := by
  induction n generalizing i with
  | zero => omega
  | succ m ih =>
    cases i with
    | zero => rfl
    | succ j => simpa [List.replicate, List.getD] using ih (i := j) (by omega)

lemma getD_of_le {α : Type} {i : Nat} {l : List α} (d : α) (h : l.length ≤ i) :
    l.getD i d = d := by
  induction l generalizing i with
  | nil => simp [List.getD]
  | cons x xs ih =>
    cases i with
    | zero => simp at h
    | succ j => simpa [List.getD] using ih (by simpa using h)

lemma getD_set_self {α : Type} {i : Nat} {l : List α} (x d : α) (h : i < l.length) :
    (l.set i x).getD i d = x := by
  induction l generalizing i with
  | nil => simp at h
  | cons y ys ih =>
    cases i with
    | zero => rfl
    | succ j => simpa [List.getD] using ih (by simpa using h)

lemma getD_set_ne {α : Type} {i j : Nat} {l : List α} (x d : α) (h : i ≠ j) :
    (l.set i x).getD j d = l.getD j d := by
  induction l generalizing i j with
  | nil => simp
  | cons y ys ih =>
    cases i with
    | zero =>
      cases j with
      | zero => omega
      | succ j' => simp [List.getD]
    | succ i' =>
      cases j with
      | zero => simp [List.getD]
      | succ j' => simpa [List.getD] using ih (i := i') (j := j') (by omega)

lemma getD_map {α β : Type} {i : Nat} {l : List α} (f : α → β) (d : β) (d' : α)
    (h : i < l.length) : (l.map f).getD i d = f (l.getD i d') := by
  induction l generalizing i with
  | nil => simp at h
  | cons y ys ih =>
    cases i with
    | zero => rfl
    | succ j => simpa [List.getD] using ih (by simpa using h)

lemma evictFuel_of_le {s : Shard} (n : Nat) (h : s.usage ≤ s.capacity) :
    Shard.evictFuel n s = s := by
  cases n with
  | zero => rfl
  | succ m => simp [Shard.evictFuel, h]

lemma evict_of_le {s : Shard} (h : s.usage ≤ s.capacity) : Shard.evict s = s :=
  evictFuel_of_le _ h

lemma evictFuel_capacity (n : Nat) (s : Shard) :
    (Shard.evictFuel n s).capacity = s.capacity := by
  induction n generalizing s with
  | zero => rfl
  | succ m ih =>
    by_cases h : s.usage ≤ s.capacity
    · simp [Shard.evictFuel, h]
    · simp only [Shard.evictFuel, h, if_false]
      cases hl : s.lru.getLast? with
      | none => rfl
      | some k => simpa using ih _

lemma evict_capacity (s : Shard) : (Shard.evict s).capacity = s.capacity :=
  evictFuel_capacity _ _

lemma setCapacity_capacity (c : Nat) (s : Shard) :
    (Shard.setCapacity c s).capacity = c := by
  simpa [Shard.setCapacity] using evict_capacity { s with capacity := c }

lemma insert_into_empty {rk : List Nat} {v : Value} {ch cap : Nat} (h : ch ≤ cap) :
    Shard.insert rk v ch (emptyShard cap)
      = { table := [{ key := rk, value := v, charge := ch, refcount := 0 }],
          lru := [rk], usage := ch, capacity := cap } := by
  simp only [Shard.insert, emptyShard, List.find?]
  rw [show (0 + ch) = ch from Nat.zero_add ch]
  apply evict_of_le
  simpa using h

lemma insert_second {rk1 rk2 : List Nat} {v1 v2 : Value} {c1 c2 cap : Nat}
    (hne : rk2 ≠ rk1) (h : c1 + c2 ≤ cap) :
    Shard.insert rk2 v2 c2
      { table := [{ key := rk1, value := v1, charge := c1, refcount := 0 }],
        lru := [rk1], usage := c1, capacity := cap }
      = { table := [{ key := rk2, value := v2, charge := c2, refcount := 0 },
                    { key := rk1, value := v1, charge := c1, refcount := 0 }],
          lru := [rk2, rk1], usage := c1 + c2, capacity := cap } := by
  have hfind :
      List.find? (fun e => decide (e.key = rk2))
        [Entry.mk rk1 v1 c1 0] = none := by
    simp [List.find?, hne.symm]
  simp only [Shard.insert, hfind]
  apply evict_of_le
  simpa using h

lemma shardIdx_eq_div {bits : Nat} (h : Nat) (hb : 0 < bits) :
    shardIdx bits h = h / 2 ^ (32 - bits) := by
  simp [shardIdx, hb, Nat.shiftRight_eq_div_pow]

lemma shardIdx_lt {bits h : Nat} (hb : bits ≤ 32) (hh : h < 2 ^ 32) :
    shardIdx bits h < 2 ^ bits := by
  rcases Nat.eq_zero_or_pos bits with h0 | hpos
  · subst h0
    simp [shardIdx]
  · rw [shardIdx_eq_div h hpos,
      Nat.div_lt_iff_lt_mul (pow_pos (by norm_num) (32 - bits))]
    calc h < 2 ^ 32 := hh
    _ = 2 ^ bits * 2 ^ (32 - bits) := by
        rw [← pow_add]
        congr 1
        omega

lemma shardBitsLoopF_eq_min (fuel n b : Nat) (hb : b < 6) (hfuel : fuel = 6 - b) :
    shardBitsLoopF fuel n b = min (b + specShiftCount n) 6 := by
  induction n using Nat.strong_induction_on generalizing fuel b with
  | _ n ih =>
    have hstep : fuel = (6 - (b + 1)) + 1 := by omega
    subst hstep
    by_cases hn : n = 0
    · subst hn
      rw [show specShiftCount 0 = 0 from by rw [specShiftCount]; simp]
      simp [shardBitsLoopF]
      omega
    · have hcount : specShiftCount n = specShiftCount (n / 2) + 1 := by
        rw [specShiftCount]
        simp [hn]
      by_cases h6 : 6 ≤ b + 1
      · have h1 : 1 ≤ specShiftCount n := by omega
        simp [shardBitsLoopF, hn, h6]
        omega
      · have hrec : shardBitsLoopF ((6 - (b + 1)) + 1) n b
            = shardBitsLoopF (6 - (b + 1)) (n / 2) (b + 1) := by
          simp [shardBitsLoopF, hn, h6]
        rw [hrec,
          ih (n / 2) (Nat.div_lt_self (Nat.pos_of_ne_zero hn) one_lt_two) _ (b + 1)
            (by omega) rfl,
          hcount]
        omega

lemma getDefaultCacheShardBits_eq (c : Nat) :
    getDefaultCacheShardBits c = min (specShiftCount (c / (512 * 1024))) 6 := by
  rw [getDefaultCacheShardBits, shardBitsLoopF_eq_min 6 _ 0 (by omega) (by omega)]
  simp

lemma getDefaultCacheShardBits_le_six (c : Nat) : getDefaultCacheShardBits c ≤ 6 := by
  rw [getDefaultCacheShardBits_eq]
  omega

lemma ceil_div_formula {c n : Nat} (hn : 0 < n) :
    (c + (n - 1)) / n = specCeil c n := by
  have hdm : n * (c / n) + c % n = c := Nat.div_add_mod c n
  have hr : c % n < n := Nat.mod_lt _ hn
  have hsub : (n - 1) / n = 0 := Nat.div_eq_of_lt (by omega)
  by_cases h0 : c % n = 0
  · have hc : c = n * (c / n) := by omega
    rw [specCeil, if_pos h0]
    conv_lhs => rw [hc]
    rw [Nat.mul_add_div hn, hsub]
    omega
  · rw [specCeil, if_neg h0]
    have hmul : n * (c / n + 1) = n * (c / n) + n := by ring
    have hrw : c + (n - 1) = n * (c / n + 1) + (c % n - 1) := by
      rw [hmul]
      generalize n * (c / n) = m at hdm ⊢
      omega
    have hsub2 : (c % n - 1) / n = 0 := Nat.div_eq_of_lt (by omega)
    rw [hrw, Nat.mul_add_div hn, hsub2]

lemma initCache_bounds (c b : Nat) (hb : b < 10) :
    (initCache c b).shards.length = 2 ^ (initCache c b).num_shard_bits
    ∧ (initCache c b).num_shard_bits < 10
    ∧ ∀ h, h < 2 ^ 32 →
        shardIdx (initCache c b).num_shard_bits h < (initCache c b).shards.length := by
  have hnb : (initCache c b).num_shard_bits = b := rfl
  have hlen : (initCache c b).shards.length = 2 ^ b := by
    simp [initCache]
  refine ⟨by rw [hlen, hnb], by rw [hnb]; exact hb, ?_⟩
  intro h hh
  rw [hnb, hlen]
  exact shardIdx_lt (by omega) hh

lemma getPerfShardCapacity_eq_specCeil {c bits : Nat}
    (hof : c + (2 ^ bits - 1) < 2 ^ 64) :
    getPerfShardCapacity c bits = specCeil c (2 ^ bits) := by
  rw [getPerfShardCapacity, Nat.mod_eq_of_lt hof,
    ceil_div_formula (pow_pos (by norm_num) bits)]

lemma mkTag_eq_take_pad (ns : List Nat) :
    mkTag ns = ns.take 10 ++ List.replicate (10 - ns.length) 0 := by
  apply List.ext_getElem
  · simp [mkTag]
    omega
  · intro i h1 h2
    simp only [mkTag, List.getElem_map, List.getElem_range]
    by_cases hlt : i < ns.length
    · rw [if_pos hlt]
      have hleft : i < (ns.take 10).length := by
        simp only [List.length_take]
        simp only [mkTag, List.length_map, List.length_range] at h1
        omega
      rw [List.getElem_append_left hleft, List.getElem_take]
      exact List.getD_eq_getElem ns 0 hlt
    · rw [if_neg hlt]
      have hge : (ns.take 10).length ≤ i := by
        simp only [List.length_take]
        omega
      rw [List.getElem_append_right hge]
      simp

lemma cacheInsert_fresh (hashFn : List Nat → Nat) (tag key : List Nat) (v : Value)
    (ch c bits : Nat) (hf : hashFn (keyAdaptNamespace key tag) < 2 ^ 32)
    (hb : bits < 10) (hch : ch ≤ getPerfShardCapacity c bits) :
    cacheInsert hashFn tag key v ch (initCache c bits)
      = { shards :=
            (List.replicate (2 ^ bits) (emptyShard (getPerfShardCapacity c bits))).set
              (shardIdx bits (hashFn (tag ++ key)))
              { table := [{ key := tag ++ key, value := v, charge := ch, refcount := 0 }],
                lru := [tag ++ key], usage := ch,
                capacity := getPerfShardCapacity c bits },
          num_shard_bits := bits, capacity := c, atomic_last_id := 1,
          namespaces := [], nextHandle := 0 } := by
  have hidx : shardIdx bits (hashFn (tag ++ key)) < 2 ^ bits :=
    shardIdx_lt (by omega) hf
  have hgetD :
      (List.replicate (2 ^ bits) (emptyShard (getPerfShardCapacity c bits))).getD
          (shardIdx bits (hashFn (tag ++ key))) defShard
        = emptyShard (getPerfShardCapacity c bits) := getD_replicate _ _ hidx
  dsimp only [cacheInsert, keyAdaptNamespace, initCache]
  rw [hgetD, insert_into_empty hch]

lemma peekRaw_after_fresh_insert (hashFn : List Nat → Nat) (tag key : List Nat)
    (v : Value) (ch c bits : Nat) (hf : hashFn (keyAdaptNamespace key tag) < 2 ^ 32)
    (hb : bits < 10) (hch : ch ≤ getPerfShardCapacity c bits) :
    peekRaw hashFn (tag ++ key) (cacheInsert hashFn tag key v ch (initCache c bits))
      = some { key := tag ++ key, value := v, charge := ch, refcount := 0 } := by
  have hidx : shardIdx bits (hashFn (tag ++ key)) < 2 ^ bits :=
    shardIdx_lt (by omega) hf
  rw [cacheInsert_fresh hashFn tag key v ch c bits hf hb hch]
  dsimp only [peekRaw]
  rw [getD_set_self _ _ (by simpa using hidx)]
  simp [List.find?]

lemma Shard.lookup_eq (rk : List Nat) (s : Shard) :
    Shard.lookup rk s
      = match s.table.find? (fun e => decide (e.key = rk)) with
        | none => (none, false, s)
        | some e =>
          (some e.value, true,
            if e.refcount = 0 then
              { s with lru := rk :: s.lru.filter (fun k => decide (k ≠ rk)) }
            else s) := rfl

lemma Shard.reference_eq (rk : List Nat) (s : Shard) :
    Shard.reference rk s
      = match s.table.find? (fun e => decide (e.key = rk)) with
        | none => (none, false, s)
        | some e =>
          (some e.value, true,
            { s with
                table := s.table.map
                  (fun x => if x.key = rk then { x with refcount := x.refcount + 1 } else x),
                lru := if e.refcount = 0 then s.lru.filter (fun k => decide (k ≠ rk))
                       else s.lru }) := rfl

lemma Shard.merge_eq (rk : List Nat) (delta : Value) (dcharge : Nat)
    (mop : MergeOp) (cop : ChargeOp) (s : Shard) :
    Shard.merge rk delta dcharge mop cop s
      = match s.table.find? (fun e => decide (e.key = rk)) with
        | none => Except.ok (delta, Shard.insert rk delta dcharge s)
        | some e =>
          match mop e.value delta with
          | Except.error msg => Except.error msg
          | Except.ok nv =>
            match cop e.charge dcharge with
            | Except.error msg => Except.error msg
            | Except.ok nc =>
              let s1 := { s with
                table := s.table.map
                  (fun x => if x.key = rk then { x with value := nv, charge := nc } else x),
                usage := s.usage - e.charge + nc,
                lru := if e.refcount = 0 then rk :: s.lru.filter (fun k => decide (k ≠ rk))
                       else s.lru }
              Except.ok (nv, Shard.evict s1) := rfl

lemma peek_bound (hashFn : List Nat → Nat) (tag key : List Nat) (st : CacheState)
    (e : Entry) (he : peekEntry hashFn tag key st = some e) :
    shardIdx st.num_shard_bits (hashFn (keyAdaptNamespace key tag)) < st.shards.length := by
  by_contra hge
  push_neg at hge
  dsimp only [peekEntry, peekRaw] at he
  rw [getD_of_le _ hge] at he
  simp [defShard, emptyShard] at he

lemma cacheLookup_peek (hashFn : List Nat → Nat) (tag key : List Nat) (st : CacheState)
    (e : Entry) (he : peekEntry hashFn tag key st = some e) :
    (cacheLookup hashFn tag key st).1 = some e.value
    ∧ peekEntry hashFn tag key (cacheLookup hashFn tag key st).2.2 = some e := by
  have hb := peek_bound hashFn tag key st e he
  have he' := he
  dsimp only [peekEntry, peekRaw] at he'
  dsimp only [cacheLookup]
  rw [Shard.lookup_eq, he']
  refine ⟨rfl, ?_⟩
  dsimp only [peekEntry, peekRaw]
  rw [getD_set_self _ _ (by simpa using hb)]
  by_cases hr : e.refcount = 0
  · rw [if_pos hr]
    exact he'
  · rw [if_neg hr]
    exact he'

lemma cacheGet_hit_vstr (hashFn : List Nat → Nat) (tag key : List Nat) (st : CacheState)
    (e : Entry) (s : List Nat) (he : peekEntry hashFn tag key st = some e)
    (hv : e.value = Value.vstr s) :
    (cacheGet hashFn tag key st).1 = (s, true) := by
  have hl := cacheLookup_peek hashFn tag key st e he
  dsimp only [cacheGet]
  rw [hl.1, hv]

lemma find?_map_bump (rk : List Nat) (table : List Entry) (e : Entry)
    (he : table.find? (fun x => decide (x.key = rk)) = some e) :
    (table.map
        (fun x => if x.key = rk then { x with refcount := x.refcount + 1 } else x)).find?
        (fun x => decide (x.key = rk))
      = some { e with refcount := e.refcount + 1 } := by
  induction table with
  | nil => simp at he
  | cons a t ih =>
    by_cases h : a.key = rk
    · rw [List.find?_cons_of_pos _ (by simpa using h)] at he
      cases he
      simp only [List.map_cons, if_pos h]
      rw [List.find?_cons_of_pos _ (by simpa using h)]
    · rw [List.find?_cons_of_neg _ (by simpa using h)] at he
      simp only [List.map_cons, if_neg h]
      rw [List.find?_cons_of_neg _ (by simpa using h)]
      exact ih he

lemma cacheReference_bump (hashFn : List Nat → Nat) (tag key : List Nat)
    (st : CacheState) (e : Entry) (he : peekEntry hashFn tag key st = some e) :
    peekEntry hashFn tag key (cacheReference hashFn tag key st).2.2
      = some { e with refcount := e.refcount + 1 } := by
  have hb := peek_bound hashFn tag key st e he
  have he' := he
  dsimp only [peekEntry, peekRaw] at he'
  dsimp only [cacheReference]
  rw [Shard.reference_eq, he']
  dsimp only [peekEntry, peekRaw]
  rw [getD_set_self _ _ (by simpa using hb)]
  exact find?_map_bump _ _ _ he'

lemma cacheInsert_eq (hashFn : List Nat → Nat) (tag key : List Nat) (v : Value)
    (ch : Nat) (st : CacheState) :
    cacheInsert hashFn tag key v ch st
      = { st with
          shards := st.shards.set (shardIdx st.num_shard_bits (hashFn (tag ++ key)))
            (Shard.insert (tag ++ key) v ch
              (st.shards.getD (shardIdx st.num_shard_bits (hashFn (tag ++ key)))
                defShard)) } := rfl

/-- The registry state after a first successful `NewLRUCache` with tag
`"a"` on a freshly initialized cache. -/
def regAfterA : CacheState :=
  { initCache 1024 2 with namespaces := [(mkTag [97], 0)], nextHandle := 1 }

/-- Claim C1, evaluation of the code at the failing input: after
`InitLRUCache(1024, 2)`, the first `NewLRUCache("a")` returns a fresh
handle (id 0) with created = true, but the second call returns the nil
handle (`none`) with created = false instead of the registered handle.
The `if`-initializer of `getNamespace` shadows the outer handle variable,
so the found-it path falls through to `return cache, false` with the
outer, still-nil handle. -/
theorem claim_C1_code_bug_eval :
    NewLRUCache [97] (some (initCache 1024 2))
      = Except.ok (some 0, true, regAfterA)
    ∧ NewLRUCache [97] (some regAfterA) = Except.ok (none, false, regAfterA) := by
  constructor
  · decide
  · decide

/-- Claim C4: for a 32-bit hash, the selected shard is
`hash >>> (32 - num_shard_bits)` — the high-order `num_shard_bits` bits,
that is, division by `2 ^ (32 - bits)` — when `num_shard_bits > 0`, and
shard 0 when `num_shard_bits = 0`. -/
theorem claim_C4_shard_selection (bits h : Nat) (_hh : h < 2 ^ 32) :
    (0 < bits → shardIdx bits h = h / 2 ^ (32 - bits))
    ∧ (bits = 0 → shardIdx bits h = 0) := by
  refine ⟨fun hb => shardIdx_eq_div h hb, fun h0 => by simp [shardIdx, h0]⟩

/-- Witness for claim C4 at concrete inputs. -/
theorem claim_C4_witness :
    shardIdx 3 4000000000 = 4000000000 / 2 ^ 29 ∧ shardIdx 0 5 = 0 :=
  ⟨(claim_C4_shard_selection 3 4000000000 (by norm_num)).1 (by norm_num),
   (claim_C4_shard_selection 0 5 (by norm_num)).2 rfl⟩

/-- Claim C5 (amended): a panic is raised exactly when `InitLRUCache` is
called with `num_shard_bits ≥ 10`, or `DefaultLRUCache` / `NewLRUCache` is
used before initialization.  A second `InitLRUCache` call does not panic:
it silently replaces the global cache. -/
theorem claim_C5_panic_conditions (c bits : Nat) (g : Option CacheState) :
    (isErr (InitLRUCache c bits g) = true ↔ 10 ≤ bits)
    ∧ (isErr (DefaultLRUCache g) = true ↔ g = none)
    ∧ (∀ s, isErr (NewLRUCache s g) = true ↔ g = none) := by
  refine ⟨?_, ?_, ?_⟩
  · by_cases hb : 10 ≤ bits
    · simp [InitLRUCache, hb, isErr]
    · by_cases h0 : bits = 0 <;> simp [InitLRUCache, hb, h0, isErr]
  · cases g <;> simp [DefaultLRUCache, isErr]
  · intro s
    cases g <;> simp [NewLRUCache, isErr]

/-- Witness for claim C5 at concrete inputs. -/
theorem claim_C5_witness :
    isErr (InitLRUCache 64 10 none) = true
    ∧ isErr (DefaultLRUCache (none : Option CacheState)) = true
    ∧ isErr (NewLRUCache [97] none) = true :=
  ⟨(claim_C5_panic_conditions 64 10 none).1.mpr (by norm_num),
   (claim_C5_panic_conditions 64 10 none).2.1.mpr rfl,
   ((claim_C5_panic_conditions 64 10 none).2.2 [97]).mpr rfl⟩

/-- The global state after a first successful `InitLRUCache(1024, 2)`. -/
def afterFirstInit : Option CacheState :=
  match InitLRUCache 1024 2 none with
  | Except.ok g => g
  | Except.error _ => none

/-- Claim C5 counterexample: calling `InitLRUCache` a second time on an
already-initialized global does not panic — the call succeeds. -/
theorem claim_C5_counterexample :
    afterFirstInit ≠ none
    ∧ isErr (InitLRUCache 1024 2 afterFirstInit) = false := by
  constructor
  · decide
  · decide

/-- Claim C6: with `num_shard_bits = 0`, the derived shard-bit count is the
number of right-shifts needed to reduce `capacity / 524288` to zero,
capped at 6; it never exceeds 6, equals 1 at capacity 1000000, and
`InitLRUCache 1000000 0` builds the cache with `num_shard_bits = 1`. -/
theorem claim_C6_derived_shard_bits :
    (∀ c, getDefaultCacheShardBits c = min (specShiftCount (c / (512 * 1024))) 6)
    ∧ (∀ c, getDefaultCacheShardBits c ≤ 6)
    ∧ getDefaultCacheShardBits 1000000 = 1
    ∧ InitLRUCache 1000000 0 none = Except.ok (some (initCache 1000000 1)) :=
  ⟨getDefaultCacheShardBits_eq, getDefaultCacheShardBits_le_six, by decide, by decide⟩

/-- Claim C7 (amended): the per-shard capacity is the Go `uint64`
expression `(c + num_shards - 1) / num_shards`, which equals the exact
`ceil (c / num_shards)` whenever the sum does not wrap modulo `2 ^ 64`;
`SetCapacity` assigns it to every shard, and initialization sizes every
shard by the same formula. -/
theorem claim_C7_per_shard_capacity (c bits : Nat) (st : CacheState)
    (hof : c + (2 ^ bits - 1) < 2 ^ 64) (hb : st.num_shard_bits = bits) :
    getPerfShardCapacity c bits = specCeil c (2 ^ bits)
    ∧ (∀ i, i < st.shards.length →
        ((cacheSetCapacity c st).shards.getD i defShard).capacity
          = getPerfShardCapacity c bits)
    ∧ (∀ i, i < 2 ^ bits →
        ((initCache c bits).shards.getD i defShard).capacity
          = getPerfShardCapacity c bits) := by
  refine ⟨getPerfShardCapacity_eq_specCeil hof, ?_, ?_⟩
  · intro i hi
    have hmap := getD_map (l := st.shards)
      (Shard.setCapacity (getPerfShardCapacity c st.num_shard_bits)) defShard defShard hi
    simp only [cacheSetCapacity]
    rw [hmap, setCapacity_capacity, hb]
  · intro i hi
    have hrep : ((initCache c bits).shards.getD i defShard)
        = emptyShard (getPerfShardCapacity c bits) := getD_replicate _ _ hi
    rw [hrep]
    rfl

/-- Witness for claim C7 at concrete inputs. -/
theorem claim_C7_witness :
    getPerfShardCapacity 1000 2 = specCeil 1000 (2 ^ 2)
    ∧ ((cacheSetCapacity 1000 (initCache 1000 2)).shards.getD 3 defShard).capacity
        = getPerfShardCapacity 1000 2 :=
  ⟨(claim_C7_per_shard_capacity 1000 2 (initCache 1000 2) (by norm_num) rfl).1,
   (claim_C7_per_shard_capacity 1000 2 (initCache 1000 2) (by norm_num) rfl).2.1 3
     (by decide)⟩

/-- Claim C7 counterexample: at the largest `uint64` capacity the Go sum
wraps, so the per-shard value is not the exact ceiling. -/
theorem claim_C7_counterexample :
    getPerfShardCapacity (2 ^ 64 - 1) 1 ≠ specCeil (2 ^ 64 - 1) (2 ^ 1) := by
  decide

/-- Claim C10: after a successful `InitLRUCache`, the cache has exactly
`2 ^ num_shard_bits` shards with `num_shard_bits < 10`, and every 32-bit
hash selects an index strictly below the shard-array length, so the
dispatch indexing done by Insert, Lookup, Remove, Merge, Reference and
Release is in bounds. -/
theorem claim_C10_indexing_in_bounds (c bits : Nat) (g : Option CacheState)
    (st : CacheState) (hok : InitLRUCache c bits g = Except.ok (some st)) :
    st.shards.length = 2 ^ st.num_shard_bits
    ∧ st.num_shard_bits < 10
    ∧ ∀ h, h < 2 ^ 32 → shardIdx st.num_shard_bits h < st.shards.length := by
  by_cases hb : 10 ≤ bits
  · exact absurd hok (by simp [InitLRUCache, hb])
  · have hlt10 : (if bits = 0 then getDefaultCacheShardBits c else bits) < 10 := by
      by_cases h0 : bits = 0
      · have := getDefaultCacheShardBits_le_six c
        simp only [if_pos h0]
        omega
      · simp only [if_neg h0]
        omega
    have hst : st = initCache c (if bits = 0 then getDefaultCacheShardBits c else bits) := by
      by_cases h0 : bits = 0
      · simp only [InitLRUCache, if_neg hb, if_pos h0] at hok
        simp only [Except.ok.injEq, Option.some.injEq] at hok
        simp [h0, hok]
      · simp only [InitLRUCache, if_neg hb, if_neg h0] at hok
        simp only [Except.ok.injEq, Option.some.injEq] at hok
        simp [h0, hok]
    subst hst
    exact initCache_bounds c _ hlt10

/-- Claim C3: every key operation works only through the real key
`tag ++ K`; the tag built from a namespace string is exactly 10 bytes —
the string truncated to its first 10 bytes, or right-padded with zero
bytes — the default handle carries the all-zero tag, and an insert stores
an entry whose key is exactly `tag ++ K`. -/
theorem claim_C3_real_key_format (ns key : List Nat) :
    (mkTag ns).length = 10
    ∧ mkTag ns = ns.take 10 ++ List.replicate (10 - ns.length) 0
    ∧ keyAdaptNamespace key (mkTag ns) = mkTag ns ++ key
    ∧ (∀ st, DefaultLRUCache (some st) = Except.ok (List.replicate 10 0))
    ∧ (∀ hashFn t2 k2 (v delta : Value) (ch dch : Nat) st mop cop,
        keyAdaptNamespace key (mkTag ns) = keyAdaptNamespace k2 t2 →
        cacheInsert hashFn (mkTag ns) key v ch st = cacheInsert hashFn t2 k2 v ch st
        ∧ cacheLookup hashFn (mkTag ns) key st = cacheLookup hashFn t2 k2 st
        ∧ cacheRemove hashFn (mkTag ns) key st = cacheRemove hashFn t2 k2 st
        ∧ cacheReference hashFn (mkTag ns) key st = cacheReference hashFn t2 k2 st
        ∧ cacheRelease hashFn (mkTag ns) key st = cacheRelease hashFn t2 k2 st
        ∧ cacheMerge hashFn (mkTag ns) key delta dch mop cop st
            = cacheMerge hashFn t2 k2 delta dch mop cop st)
    ∧ (∀ hashFn (v : Value) (ch c bits : Nat),
        hashFn (keyAdaptNamespace key (mkTag ns)) < 2 ^ 32 → bits < 10 →
        ch ≤ getPerfShardCapacity c bits →
        peekRaw hashFn (mkTag ns ++ key)
          (cacheInsert hashFn (mkTag ns) key v ch (initCache c bits))
          = some { key := mkTag ns ++ key, value := v, charge := ch, refcount := 0 }) := by
  refine ⟨by simp [mkTag], mkTag_eq_take_pad ns, rfl, fun st => rfl, ?_, ?_⟩
  · intro hashFn t2 k2 v delta ch dch st mop cop heq
    refine ⟨?_, ?_, ?_, ?_, ?_, ?_⟩
    · dsimp only [cacheInsert]
      rw [heq]
    · dsimp only [cacheLookup]
      rw [heq]
    · dsimp only [cacheRemove]
      rw [heq]
    · dsimp only [cacheReference]
      rw [heq]
    · dsimp only [cacheRelease]
      rw [heq]
    · dsimp only [cacheMerge]
      rw [heq]
  · intro hashFn v ch c bits hf hb hch
    exact peekRaw_after_fresh_insert hashFn (mkTag ns) key v ch c bits hf hb hch

/-- Witness for claim C3 at concrete inputs. -/
theorem claim_C3_witness :
    (mkTag [97, 98]).length = 10
    ∧ mkTag [97, 98] = [97, 98].take 10 ++ List.replicate (10 - [97, 98].length) 0
    ∧ cacheInsert (fun _ => 0) (mkTag [97, 98]) [5] (Value.vint 3) 1 (initCache 64 1)
        = cacheInsert (fun _ => 0) (mkTag [97, 98] ++ [5]) [] (Value.vint 3) 1 (initCache 64 1)
    ∧ peekRaw (fun _ => 0) (mkTag [97, 98] ++ [5])
        (cacheInsert (fun _ => 0) (mkTag [97, 98]) [5] (Value.vint 3) 1 (initCache 64 1))
        = some { key := mkTag [97, 98] ++ [5], value := Value.vint 3, charge := 1,
                 refcount := 0 } :=
  have h := claim_C3_real_key_format [97, 98] [5]
  ⟨h.1, h.2.1,
   (h.2.2.2.2.1 (fun _ => 0) (mkTag [97, 98] ++ [5]) [] (Value.vint 3) (Value.vint 0) 1 0
      (initCache 64 1) Int64MergeOperator Int64ChargeOperator (by decide)).1,
   h.2.2.2.2.2 (fun _ => 0) (Value.vint 3) 1 64 1 (by decide) (by decide) (by decide)⟩

/-- Claim C2: namespace isolation.  For two handles whose 10-byte tags
differ, inserting the same user key through each stores two distinct real
keys — fixed-width tags make `tag ++ K` injective in the tag — and each
handle's `Get` then returns its own value.  Stated from a freshly
initialized cache with both charges within the per-shard budget, so that
the second insert does not evict the first. -/
theorem claim_C2_namespace_isolation (hashFn : List Nat → Nat)
    (hf : ∀ k, hashFn k < 2 ^ 32) (c bits : Nat) (hb : bits < 10)
    (t1 t2 K V1 V2 : List Nat) (c1 c2 : Nat)
    (h1 : t1.length = 10) (h2 : t2.length = 10) (hne : t1 ≠ t2)
    (hcap : c1 + c2 ≤ getPerfShardCapacity c bits) :
    keyAdaptNamespace K t1 ≠ keyAdaptNamespace K t2
    ∧ (cacheGet hashFn t1 K
        (cacheInsert hashFn t2 K (Value.vstr V2) c2
          (cacheInsert hashFn t1 K (Value.vstr V1) c1 (initCache c bits)))).1
        = (V1, true)
    ∧ (cacheGet hashFn t2 K
        (cacheInsert hashFn t2 K (Value.vstr V2) c2
          (cacheInsert hashFn t1 K (Value.vstr V1) c1 (initCache c bits)))).1
        = (V2, true) := by
  have hrk : keyAdaptNamespace K t1 ≠ keyAdaptNamespace K t2 := by
    intro h
    exact hne (List.append_inj h (h1.trans h2.symm)).1
  have hrk' : (t1 ++ K : List Nat) ≠ t2 ++ K := hrk
  have hcap1 : c1 ≤ getPerfShardCapacity c bits := le_trans (Nat.le_add_right c1 c2) hcap
  have hcap2 : c2 ≤ getPerfShardCapacity c bits := le_trans (Nat.le_add_left c2 c1) hcap
  have hi1 : shardIdx bits (hashFn (t1 ++ K)) < 2 ^ bits := shardIdx_lt (by omega) (hf _)
  have hi2 : shardIdx bits (hashFn (t2 ++ K)) < 2 ^ bits := shardIdx_lt (by omega) (hf _)
  have hpeek1 : peekEntry hashFn t1 K
      (cacheInsert hashFn t2 K (Value.vstr V2) c2
        (cacheInsert hashFn t1 K (Value.vstr V1) c1 (initCache c bits)))
      = some { key := t1 ++ K, value := Value.vstr V1, charge := c1, refcount := 0 } := by
    rw [cacheInsert_fresh hashFn t1 K (Value.vstr V1) c1 c bits (hf _) hb hcap1,
      cacheInsert_eq]
    dsimp only [peekEntry, peekRaw, keyAdaptNamespace]
    by_cases hii : shardIdx bits (hashFn (t2 ++ K)) = shardIdx bits (hashFn (t1 ++ K))
    · rw [hii, getD_set_self _ _ (by simpa using hi1),
        getD_set_self _ _ (by simpa using hi1),
        insert_second (Ne.symm hrk') hcap]
      simp [List.find?, Ne.symm hrk']
    · rw [getD_set_ne _ _ (Ne.symm hii), getD_replicate _ _ hi2,
        insert_into_empty hcap2,
        getD_set_ne _ _ hii, getD_set_self _ _ (by simpa using hi1)]
      simp [List.find?]
  have hpeek2 : peekEntry hashFn t2 K
      (cacheInsert hashFn t2 K (Value.vstr V2) c2
        (cacheInsert hashFn t1 K (Value.vstr V1) c1 (initCache c bits)))
      = some { key := t2 ++ K, value := Value.vstr V2, charge := c2, refcount := 0 } := by
    rw [cacheInsert_fresh hashFn t1 K (Value.vstr V1) c1 c bits (hf _) hb hcap1,
      cacheInsert_eq]
    dsimp only [peekEntry, peekRaw, keyAdaptNamespace]
    by_cases hii : shardIdx bits (hashFn (t2 ++ K)) = shardIdx bits (hashFn (t1 ++ K))
    · rw [hii, getD_set_self _ _ (by simpa using hi1),
        getD_set_self _ _ (by simpa using hi1),
        insert_second (Ne.symm hrk') hcap]
      simp [List.find?]
    · rw [getD_set_ne _ _ (Ne.symm hii), getD_replicate _ _ hi2,
        insert_into_empty hcap2,
        getD_set_self _ _ (by simpa using hi2)]
      simp [List.find?]
  exact ⟨hrk,
    cacheGet_hit_vstr hashFn t1 K _ _ V1 hpeek1 rfl,
    cacheGet_hit_vstr hashFn t2 K _ _ V2 hpeek2 rfl⟩

/-- Witness for claim C2 at concrete inputs (with a colliding hash
function, so both real keys land in the same shard). -/
theorem claim_C2_witness :
    keyAdaptNamespace [5] (mkTag [97]) ≠ keyAdaptNamespace [5] (mkTag [98])
    ∧ (cacheGet (fun _ => 0) (mkTag [97]) [5]
        (cacheInsert (fun _ => 0) (mkTag [98]) [5] (Value.vstr [2]) 4
          (cacheInsert (fun _ => 0) (mkTag [97]) [5] (Value.vstr [1]) 3
            (initCache 64 1)))).1 = ([1], true)
    ∧ (cacheGet (fun _ => 0) (mkTag [98]) [5]
        (cacheInsert (fun _ => 0) (mkTag [98]) [5] (Value.vstr [2]) 4
          (cacheInsert (fun _ => 0) (mkTag [97]) [5] (Value.vstr [1]) 3
            (initCache 64 1)))).1 = ([2], true) :=
  claim_C2_namespace_isolation (fun _ => 0) (fun k => by norm_num) 64 1 (by norm_num)
    (mkTag [97]) (mkTag [98]) [5] [1] [2] 3 4 (by decide) (by decide) (by decide)
    (by decide)

/-- Claim C8: when a convenience wrapper finds an entry whose stored value
is not the expected type, `Get` reports not found (empty string, `false`)
while the entry stays in place with its value intact, and `NewId` reports
an error (the int64 merge operator rejects the stored value and the merge
aborts with no state change). -/
theorem claim_C8_wrapper_type_mismatch (hashFn : List Nat → Nat) (tag key : List Nat)
    (st : CacheState) (v : Value) (hpeek : peekValue hashFn tag key st = some v) :
    ((∀ s, v ≠ Value.vstr s) →
      (cacheGet hashFn tag key st).1 = ([], false)
      ∧ peekValue hashFn tag key (cacheGet hashFn tag key st).2 = some v)
    ∧ ((∀ n, v ≠ Value.vint n) → isErr (cacheNewId hashFn tag key st) = true) := by
  obtain ⟨e, he, hev⟩ : ∃ e, peekEntry hashFn tag key st = some e ∧ e.value = v := by
    dsimp only [peekValue] at hpeek
    rw [Option.map_eq_some'] at hpeek
    obtain ⟨e, h1, h2⟩ := hpeek
    exact ⟨e, h1, h2⟩
  constructor
  · intro hv
    have hl := cacheLookup_peek hashFn tag key st e he
    constructor
    · dsimp only [cacheGet]
      rw [hl.1, hev]
      cases v with
      | vstr s => exact absurd rfl (hv s)
      | vint n => rfl
    · dsimp only [cacheGet]
      rw [hl.1, hev]
      cases v with
      | vstr s => exact absurd rfl (hv s)
      | vint n =>
        dsimp only [peekValue]
        rw [hl.2]
        simp [hev]
  · intro hv
    dsimp only [cacheNewId, cacheMerge]
    have he' := he
    dsimp only [peekEntry, peekRaw] at he'
    rw [Shard.merge_eq, he']
    dsimp only
    rw [hev]
    cases v with
    | vint n => exact absurd rfl (hv n)
    | vstr s => rfl

/-- A state holding an int64 entry, for exercising `Get` type mismatch. -/
def mismatchA : CacheState :=
  cacheInsert (fun _ => 0) (mkTag []) [3] (Value.vint 7) 1 (initCache 64 1)

/-- A state holding a string entry, for exercising `NewId` type mismatch. -/
def mismatchB : CacheState :=
  cacheInsert (fun _ => 0) (mkTag []) [3] (Value.vstr [1]) 1 (initCache 64 1)

/-- Witness for claim C8 at concrete inputs. -/
theorem claim_C8_witness :
    (cacheGet (fun _ => 0) (mkTag []) [3] mismatchA).1 = ([], false)
    ∧ isErr (cacheNewId (fun _ => 0) (mkTag []) [3] mismatchB) = true :=
  ⟨((claim_C8_wrapper_type_mismatch (fun _ => 0) (mkTag []) [3] mismatchA (Value.vint 7)
      (by decide)).1 (fun s h => Value.noConfusion h)).1,
   (claim_C8_wrapper_type_mismatch (fun _ => 0) (mkTag []) [3] mismatchB (Value.vstr [1])
      (by decide)).2 (fun n h => Value.noConfusion h)⟩

/-- Claim C9: `NewId` performs the `+1` merge with the int64 operators and
returns the post-merge value; it applies `Reference` — pinning the counter
by raising its reference count — exactly when the post-merge value is 1,
and otherwise leaves the post-merge state untouched. -/
theorem claim_C9_newid (hashFn : List Nat → Nat) (tag key : List Nat) (st : CacheState)
    (n : Int) (st1 : CacheState)
    (hm : cacheMerge hashFn tag key (Value.vint 1) 4 Int64MergeOperator Int64ChargeOperator st
        = Except.ok (Value.vint n, st1)) :
    (n ≠ 1 → cacheNewId hashFn tag key st = Except.ok (n, st1))
    ∧ (n = 1 →
        cacheNewId hashFn tag key st
          = Except.ok (1, (cacheReference hashFn tag key st1).2.2)
        ∧ ∀ e, peekEntry hashFn tag key st1 = some e →
            peekEntry hashFn tag key ((cacheReference hashFn tag key st1).2.2)
              = some { e with refcount := e.refcount + 1 }) := by
  constructor
  · intro hne
    dsimp only [cacheNewId]
    rw [hm]
    dsimp only
    rw [if_neg hne]
  · intro h1
    subst h1
    refine ⟨?_, ?_⟩
    · dsimp only [cacheNewId]
      rw [hm]
      dsimp only
      rw [if_pos rfl]
    · intro e he
      exact cacheReference_bump hashFn tag key st1 e he

/-- The state after `NewId`'s underlying merge inserts the fresh counter. -/
def newIdMerged : CacheState :=
  cacheInsert (fun _ => 0) (mkTag []) [107] (Value.vint 1) 4 (initCache 100 1)

/-- Witness for claim C9 at concrete inputs: a first `NewId` returns 1 and
pins the counter (reference count 1). -/
theorem claim_C9_witness :
    cacheNewId (fun _ => 0) (mkTag []) [107] (initCache 100 1)
      = Except.ok (1, (cacheReference (fun _ => 0) (mkTag []) [107] newIdMerged).2.2)
    ∧ peekEntry (fun _ => 0) (mkTag []) [107]
        ((cacheReference (fun _ => 0) (mkTag []) [107] newIdMerged).2.2)
      = some { key := mkTag [] ++ [107], value := Value.vint 1, charge := 4,
               refcount := 1 } :=
  have h := (claim_C9_newid (fun _ => 0) (mkTag []) [107] (initCache 100 1) 1 newIdMerged
    (by decide)).2 rfl
  ⟨h.1, by
    have hb := h.2
      { key := mkTag [] ++ [107], value := Value.vint 1, charge := 4, refcount := 0 }
      (by decide)
    exact hb⟩

/-- Witness for claim C10 at concrete inputs. -/
theorem claim_C10_witness :
    (initCache 8 1).shards.length = 2 ^ (initCache 8 1).num_shard_bits
    ∧ (initCache 8 1).num_shard_bits < 10
    ∧ shardIdx (initCache 8 1).num_shard_bits 4294967295 < (initCache 8 1).shards.length := by
  have h := claim_C10_indexing_in_bounds 8 1 none (initCache 8 1) (by decide)
  exact ⟨h.1, h.2.1, h.2.2 4294967295 (by norm_num)⟩
